import Mathlib

/-!
Shallow embedding of `src/main.cpp` (Monte Carlo π estimator).

The program keeps, per thread `n`, the unsigned 32-bit counters `count[n]`
(points inside the circle) and `total[n]` (points generated), and a `retire[n]`
flag.  Thread 0 periodically runs `analysis()`, which sums the counters of
threads `1 .. supported_threads-1` into signed `int` accumulators, divides, and
appends a `deviation` record to a global list.  After a keypress the main
thread sets each `retire[i]` and joins thread `i`, then folds the counters of
threads `1 ..` into slot 0 and prints the result followed by the drained
deviation list.

Machine integers are modelled as `Nat` reduced modulo `2^32` (`unsigned int`)
and as `Int` values in `[-2^31, 2^31)` obtained by `toSigned` (`int`); the
`long double` arithmetic of the program is modelled over `ℚ`, with the
division made partial (`Option`) so that the divide-by-zero path is explicit.
-/

namespace MonteCarloPi

/-- Modulus of the program's `unsigned int` counters (32-bit). -/
def UINT_MOD : Nat := 2 ^ 32

/-- First bit pattern that a 32-bit `int` reinterprets as negative. -/
def INT_HALF : Nat := 2 ^ 31

/-- `#define analysis_samples_rate 1000000` (src/main.cpp line 63). -/
def analysis_samples_rate : Nat := 1000000

/-- `const double test_pi = 3.14159265358979324;` (line 70), modelled in ℚ. -/
def test_pi : ℚ := 3.14159265358979324

/-- Reinterpret a 32-bit pattern (a `Nat < 2^32`) as a two's-complement `int`. -/
def toSigned (n : Nat) : Int :=
  if n < INT_HALF then (n : Int) else (n : Int) - (UINT_MOD : Int)

/-- Bit pattern of an `int` value, i.e. its value modulo `2^32` as unsigned. -/
def intBits (i : Int) : Nat := (i % (UINT_MOD : Int)).toNat

/-- One worker slot: `count[n]`, `total[n]`, `retire[n]` (lines 65-67). -/
structure WorkerSlot where
  count : Nat
  total : Nat
  retire : Bool
deriving DecidableEq

instance : Inhabited WorkerSlot := ⟨⟨0, 0, false⟩⟩

/-- `struct deviation { long double accuracy; unsigned int points; }`
(lines 87-92).  `accuracy` is `none` when the program obtained it by dividing
by a zero `count_total` (the floating-point 0/0 artifact). -/
structure Deviation where
  accuracy : Option ℚ
  points : Nat
deriving DecidableEq

/-! ### The analysis function (lines 199-216) -/

/-- Exact (unbounded) sum of `count[i]` for `i = 1 .. n-1`: the summation in
`analysis` skips slot 0 because its loop starts at `i = 1` (line 204). -/
def sumIn (slots : List WorkerSlot) : Nat :=
  ((slots.drop 1).map (·.count)).sum

/-- Exact (unbounded) sum of `total[i]` for `i = 1 .. n-1` (line 204). -/
def sumTotal (slots : List WorkerSlot) : Nat :=
  ((slots.drop 1).map (·.total)).sum

/-- One `int += unsigned int` step: the addition is performed modulo `2^32` on
the bit patterns and the result is reinterpreted as signed. -/
def addWrap (a : Int) (b : Nat) : Int :=
  toSigned ((intBits a + b) % UINT_MOD)

/-- `int count_in = 0; for(i = 1; ...) count_in += count[i];` (lines 203-207). -/
def count_in (slots : List WorkerSlot) : Int :=
  (slots.drop 1).foldl (fun a s => addWrap a s.count) 0

/-- `int count_total = 0; for(i = 1; ...) count_total += total[i];`
(lines 203-208). -/
def count_total (slots : List WorkerSlot) : Int :=
  (slots.drop 1).foldl (fun a s => addWrap a s.total) 0

/-- `(long double)count_in / count_total * 4` (line 211), as a partial value:
`none` exactly when the divisor `count_total` is zero. -/
def calculated_pi (slots : List WorkerSlot) : Option ℚ :=
  if count_total slots = 0 then none
  else some ((count_in slots : ℚ) / (count_total slots : ℚ) * 4)

/-- The record built on line 215: `deviation(test_pi - calculated_pi,
count_total)`; storing the `int count_total` into the `unsigned int points`
field takes its bit pattern. -/
def analysisRecord (slots : List WorkerSlot) : Deviation :=
  { accuracy := (calculated_pi slots).map (fun p => test_pi - p)
  , points := intBits (count_total slots) }

/-- `analysis()` pushes the record to the back of the global list (line 215). -/
def analysis (slots : List WorkerSlot) (dev : List Deviation) : List Deviation :=
  dev ++ [analysisRecord slots]

/-! ### The worker loop body (lines 167-197) -/

/-- The counter updates of one completed iteration of `pi_count` (lines
188-190): `total[n]` always gains 1, `count[n]` gains 1 iff the drawn point
was classified inside; both wrap modulo `2^32`.  `ins` abstracts the random
draw and classification of this iteration. -/
def slotStep (ins : Bool) (s : WorkerSlot) : WorkerSlot :=
  { s with
    count := if ins then (s.count + 1) % UINT_MOD else s.count
    total := (s.total + 1) % UINT_MOD }

/-- The slot of a worker after `k` completed iterations, starting from the
zeroing the worker performs first (lines 170-171); `f i` is the inside/outside
classification of the point drawn at iteration `i`. -/
def runWorker (f : Nat → Bool) : Nat → WorkerSlot
  | 0 => ⟨0, 0, false⟩
  | k + 1 => slotStep (f k) (runWorker f k)

/-- Global state touched by one worker iteration. -/
structure ProgState where
  slots : List WorkerSlot
  dev : List Deviation

/-- One iteration of `pi_count(n)` at loop counter `i` (lines 174-196): if
`retire[n]` is set nothing happens (the loop breaks); otherwise the counters
of slot `n` are updated, and afterwards, when `n == 0` and
`i % analysis_samples_rate == 0`, `analysis()` runs on the updated state. -/
def piIter (n i : Nat) (ins : Bool) (st : ProgState) : ProgState :=
  if (st.slots.getD n default).retire then st
  else
    let slots' := st.slots.set n (slotStep ins (st.slots.getD n default))
    if n == 0 && i % analysis_samples_rate == 0 then
      { slots := slots', dev := analysis slots' st.dev }
    else
      { slots := slots', dev := st.dev }

/-! ### The random source (lines 78-83 and 181) -/

/-- Internal states of the two generators the program declares: the single
global `std::mt19937_64 xgen` and `ygen` (lines 80-81).  There is one field
per generator object in the program; the concrete transition function of the
Mersenne twister is abstracted (`next` below). -/
structure RNGState where
  xgen : Nat
  ygen : Nat
deriving DecidableEq

/-- The state mutation of worker `n`'s draw `x(xgen)` (line 181), given the
generator's transition function `next`: it advances the one global `xgen`;
the call does not depend on `n`. -/
def workerDrawX (next : Nat → Nat) (n : Nat) (st : RNGState) : RNGState :=
  { st with xgen := next st.xgen }

/-- The state mutation of worker `n`'s draw `y(ygen)` (line 181). -/
def workerDrawY (next : Nat → Nat) (n : Nat) (st : RNGState) : RNGState :=
  { st with ygen := next st.ygen }

/-! ### Point classification (line 188) -/

/-- The test `sqrtl(x0 * x0 + y0 * y0) <= 1`, over exact reals. -/
def insideCheck (x0 y0 : ℝ) : Prop :=
  Real.sqrt (x0 * x0 + y0 * y0) ≤ 1

/-! ### The shutdown sequence (lines 134-139) -/

/-- Observable events of the shutdown loop. -/
inductive StopEvent where
  | setFlag (i : Nat)
  | join (i : Nat)
deriving DecidableEq

/-- The sequence of events the shutdown loop performs for `n` workers:
for each `i` in order it sets `retire[i]` and immediately joins thread `i`
(lines 134-139). -/
def stoppingTrace : Nat → List StopEvent
  | 0 => []
  | n + 1 => stoppingTrace n ++ [StopEvent.setFlag n, StopEvent.join n]

/-- Claim-side predicate: the trace never performs a `setFlag` after any
`join`, i.e. every stop flag is set before the first blocking join. -/
def noFlagAfterJoin : List StopEvent → Bool
  | [] => true
  | StopEvent.join _ :: rest =>
      (rest.all fun e =>
        match e with
        | StopEvent.setFlag _ => false
        | StopEvent.join _ => true) && noFlagAfterJoin rest
  | StopEvent.setFlag _ :: rest => noFlagAfterJoin rest

/-! ### Final aggregation (lines 141-149) -/

/-- `for(i = 1; ...) count[0] += count[i];` (line 144): fold of the non-lead
`count` values into slot 0's `count`, wrapping modulo `2^32`. -/
def finalCount (slots : List WorkerSlot) : Nat :=
  ((slots.drop 1).map (·.count)).foldl
    (fun a c => (a + c) % UINT_MOD) ((slots.headD default).count)

/-- `for(i = 1; ...) total[0] += count[i];` (line 145): the program adds the
non-lead `count` values — not the `total` values — into slot 0's `total`. -/
def finalTotal (slots : List WorkerSlot) : Nat :=
  ((slots.drop 1).map (·.count)).foldl
    (fun a c => (a + c) % UINT_MOD) ((slots.headD default).total)

/-! ### Slot allocation and launch (lines 112-127 and 167-171) -/

/-- Indeterminate contents of a freshly `new[]`-allocated slot: the program
does not write the counters before launching the thread. -/
structure SlotGarbage where
  count : Nat
  total : Nat

/-- The slot as it stands when its thread is launched: `main` has written only
`retire[i] = false` (line 125); both counters still hold whatever the
allocation left there (lines 113-114 use `new` without initialisers). -/
def slotAtLaunch (g : SlotGarbage) : WorkerSlot :=
  ⟨g.count % UINT_MOD, g.total % UINT_MOD, false⟩

/-- The zeroing the worker performs as its first two statements (lines
170-171). -/
def workerInit (s : WorkerSlot) : WorkerSlot :=
  { s with count := 0, total := 0 }

/-! ### Helper lemmas about the 32-bit arithmetic -/

lemma uint_mod_pos : 0 < UINT_MOD := by norm_num [UINT_MOD]

lemma intBits_toSigned (p : Nat) (hp : p < UINT_MOD) :
    intBits (toSigned p) = p := by
  have hM : UINT_MOD = 4294967296 := by norm_num [UINT_MOD]
  have hH : INT_HALF = 2147483648 := by norm_num [INT_HALF]
  unfold intBits toSigned
  split
  · rw [Int.emod_eq_of_lt (by positivity) (by exact_mod_cast hp)]
    exact Int.toNat_natCast p
  · rw [hM] at hp ⊢
    omega

lemma toSigned_eq_self (p : Nat) (hp : p < INT_HALF) :
    toSigned p = (p : Int) := by
  unfold toSigned
  simp [hp]

lemma toSigned_zero : toSigned 0 = 0 := by
  norm_num [toSigned, INT_HALF]

lemma foldl_addWrap (l : List Nat) (p : Nat) (hp : p < UINT_MOD) :
    l.foldl addWrap (toSigned p) = toSigned ((p + l.sum) % UINT_MOD) := by
  induction l generalizing p with
  | nil =>
      simp [Nat.mod_eq_of_lt hp]
  | cons b rest ih =>
      have hstep : addWrap (toSigned p) b = toSigned ((p + b) % UINT_MOD) := by
        unfold addWrap
        rw [intBits_toSigned p hp]
      rw [List.foldl_cons, hstep, ih _ (Nat.mod_lt _ uint_mod_pos)]
      congr 1
      rw [Nat.mod_add_mod]
      rw [List.sum_cons]
      ring_nf

lemma count_in_eq (slots : List WorkerSlot) :
    count_in slots = toSigned (sumIn slots % UINT_MOD) := by
  unfold count_in sumIn
  have h : (slots.drop 1).foldl (fun a s => addWrap a s.count) 0
      = ((slots.drop 1).map (·.count)).foldl addWrap 0 := by
    rw [List.foldl_map]
  rw [h, ← toSigned_zero, foldl_addWrap _ 0 uint_mod_pos, Nat.zero_add]

lemma count_total_eq (slots : List WorkerSlot) :
    count_total slots = toSigned (sumTotal slots % UINT_MOD) := by
  unfold count_total sumTotal
  have h : (slots.drop 1).foldl (fun a s => addWrap a s.total) 0
      = ((slots.drop 1).map (·.total)).foldl addWrap 0 := by
    rw [List.foldl_map]
  rw [h, ← toSigned_zero, foldl_addWrap _ 0 uint_mod_pos, Nat.zero_add]

lemma analysisRecord_points (slots : List WorkerSlot) :
    (analysisRecord slots).points = sumTotal slots % UINT_MOD := by
  unfold analysisRecord
  rw [count_total_eq]
  exact intBits_toSigned _ (Nat.mod_lt _ uint_mod_pos)

/-! ### C1: final aggregation -/

/-- C1: the claim says the Orchestrator's final totals are the exact sums of
every slot's counters.  The final `count` is indeed the sum of all slots'
`count`, but the aggregation loop adds `count[i]`, not `total[i]`, into
`total[0]`: on slots `[⟨3,5⟩, ⟨1,4⟩]` the code produces a final total of
`5 + 1 = 6` while the true sum of the `total` counters is `5 + 4 = 9`. -/
theorem aggregation_adds_counts_into_total :
    finalCount [⟨3, 5, false⟩, ⟨1, 4, false⟩] = 3 + 1 ∧
    finalTotal [⟨3, 5, false⟩, ⟨1, 4, false⟩] = 5 + 1 ∧
    (([⟨3, 5, false⟩, ⟨1, 4, false⟩] : List WorkerSlot).map (·.total)).sum = 9 ∧
    finalTotal [⟨3, 5, false⟩, ⟨1, 4, false⟩] ≠ 9 := by
  refine ⟨by decide, by decide, by decide, by decide⟩

/-! ### C2: analysis at zero summed total -/

/-- C2: the claim says that when the summed `pointsTotal` over the included
slots is zero the sampler never appends a record obtained by dividing by
zero.  In the code `analysis()` has no guard: with a non-lead slot whose
counters are still zero the divisor `count_total` is `0`, the quotient is the
floating 0/0 artifact (modelled `none`), and the record is pushed anyway. -/
theorem analysis_appends_on_zero_total :
    sumTotal [⟨5, 9, false⟩, ⟨0, 0, false⟩] = 0 ∧
    count_total [⟨5, 9, false⟩, ⟨0, 0, false⟩] = 0 ∧
    analysis [⟨5, 9, false⟩, ⟨0, 0, false⟩] []
      = [{ accuracy := none, points := 0 }] := by
  refine ⟨by decide, by decide, by decide⟩

/-! ### C3: generator ownership -/

/-- C3: the claim says no two workers read or advance the same generator
state.  In the code there is a single global `xgen` (and `ygen`): the draw of
worker 0 and the draw of worker 1 are the same mutation of the same global
state — here both advance `xgen` from `0` to `1`. -/
theorem sharedGenerator_counterexample :
    workerDrawX Nat.succ 0 ⟨0, 0⟩ = workerDrawX Nat.succ 1 ⟨0, 0⟩ ∧
    (workerDrawX Nat.succ 0 ⟨0, 0⟩).xgen ≠ (RNGState.mk 0 0).xgen := by
  refine ⟨rfl, by decide⟩

/-- C3 (amended): all workers share the single global pair of generator
states: any two workers' draws are the identical mutation of the shared
`xgen` (resp. `ygen`) state. -/
theorem workers_share_global_generators (next : Nat → Nat) (m n : Nat)
    (st : RNGState) :
    workerDrawX next m st = workerDrawX next n st ∧
    workerDrawY next m st = workerDrawY next n st :=
  ⟨rfl, rfl⟩

/-! ### C8: slot state at launch -/

/-- C8: the claim says every slot is fully zero-initialized before its worker
starts.  The allocation leaves the counters indeterminate and `main` writes
only the `retire` flag before launching: a slot whose allocation left `7` and
`5` in the counters is not the zeroed slot at launch time. -/
theorem slot_not_zeroed_at_launch_counterexample :
    slotAtLaunch ⟨7, 5⟩ ≠ (⟨0, 0, false⟩ : WorkerSlot) ∧
    (slotAtLaunch ⟨7, 5⟩).retire = false := by
  refine ⟨by decide, by decide⟩

/-- C8 (amended): before the worker is launched only `stopRequested` is
initialized (to `false`); the counters may hold any value at launch and are
zeroed by the worker itself as its first two statements. -/
theorem slot_launch_and_worker_init (g : SlotGarbage) :
    (slotAtLaunch g).retire = false ∧
    workerInit (slotAtLaunch g) = (⟨0, 0, false⟩ : WorkerSlot) := by
  refine ⟨rfl, rfl⟩

/-! ### C4: counter invariant of the worker loop -/

/-- Number of iterations among `0 .. k-1` whose point was classified inside. -/
def trueCount (f : Nat → Bool) (k : Nat) : Nat :=
  ((List.range k).filter f).length

lemma trueCount_succ (f : Nat → Bool) (k : Nat) :
    trueCount f (k + 1) = trueCount f k + if f k then 1 else 0 := by
  unfold trueCount
  rw [List.range_succ, List.filter_append]
  split <;> simp_all

lemma trueCount_le (f : Nat → Bool) (k : Nat) : trueCount f k ≤ k := by
  induction k with
  | zero => simp [trueCount]
  | succ n ih => rw [trueCount_succ]; split <;> omega

lemma runWorker_total (f : Nat → Bool) (k : Nat) :
    (runWorker f k).total = k % UINT_MOD := by
  induction k with
  | zero => rfl
  | succ n ih => simp [runWorker, slotStep, ih, Nat.mod_add_mod]

lemma runWorker_count (f : Nat → Bool) (k : Nat) :
    (runWorker f k).count = trueCount f k % UINT_MOD := by
  induction k with
  | zero => rfl
  | succ n ih =>
      by_cases h : f n <;>
        simp [runWorker, slotStep, h, ih, trueCount_succ, Nat.mod_add_mod]

/-- A classification stream whose first point falls outside the circle and
every later point inside. -/
def badStream (i : Nat) : Bool := !(i == 0)

lemma trueCount_badStream (k : Nat) : trueCount badStream (k + 1) = k := by
  induction k with
  | zero => rfl
  | succ n ih => rw [trueCount_succ, ih]; simp [badStream]

/-- C4: the claimed invariant `pointsInCircle ≤ pointsTotal` at *every*
observation point fails on the 32-bit counters: with a stream whose first
point is outside and all later points inside, after `2^32` completed
iterations `total` has wrapped to `0` while `count` holds `2^32 - 1`. -/
theorem counter_invariant_wraparound_counterexample :
    ¬ ((runWorker badStream (2 ^ 32)).count ≤
        (runWorker badStream (2 ^ 32)).total) := by
  have h1 : (runWorker badStream (2 ^ 32)).total = 0 := by
    rw [runWorker_total]
    norm_num [UINT_MOD]
  have h2 : (runWorker badStream (2 ^ 32)).count = 4294967295 := by
    rw [runWorker_count]
    have hk : (2 : Nat) ^ 32 = 4294967295 + 1 := by norm_num
    rw [hk, trueCount_badStream]
    norm_num [UINT_MOD]
  rw [h1, h2]
  norm_num

/-- C4 (amended): before the 32-bit `total` counter can wrap — strictly fewer
than `2^32` completed iterations — the invariant holds at every observation:
`count ≤ total`, one iteration adds exactly one to `total` and at most one to
`count`, and both counters are non-decreasing across the iteration. -/
theorem counter_invariant_before_wraparound (f : Nat → Bool) (k : Nat)
    (h : k + 1 < 2 ^ 32) :
    (runWorker f k).count ≤ (runWorker f k).total ∧
    (runWorker f (k + 1)).count ≤ (runWorker f (k + 1)).total ∧
    (runWorker f (k + 1)).total = (runWorker f k).total + 1 ∧
    ((runWorker f (k + 1)).count = (runWorker f k).count ∨
      (runWorker f (k + 1)).count = (runWorker f k).count + 1) := by
  have hM : UINT_MOD = 2 ^ 32 := rfl
  have h1 : k < UINT_MOD := by omega
  have h2 : k + 1 < UINT_MOD := by omega
  have htc : trueCount f k ≤ k := trueCount_le f k
  have htc1 : trueCount f (k + 1) ≤ k + 1 := trueCount_le f (k + 1)
  rw [runWorker_total, runWorker_total, runWorker_count, runWorker_count,
    Nat.mod_eq_of_lt h1, Nat.mod_eq_of_lt h2,
    Nat.mod_eq_of_lt (lt_of_le_of_lt htc h1),
    Nat.mod_eq_of_lt (lt_of_le_of_lt htc1 h2)]
  refine ⟨htc, htc1, rfl, ?_⟩
  rw [trueCount_succ]
  split <;> omega

/-- Witness for `counter_invariant_before_wraparound` at `f = badStream`,
`k = 3`. -/
theorem counter_invariant_before_wraparound_witness :
    3 + 1 < 2 ^ 32 ∧
    ((runWorker badStream 3).count ≤ (runWorker badStream 3).total ∧
     (runWorker badStream (3 + 1)).count ≤ (runWorker badStream (3 + 1)).total ∧
     (runWorker badStream (3 + 1)).total = (runWorker badStream 3).total + 1 ∧
     ((runWorker badStream (3 + 1)).count = (runWorker badStream 3).count ∨
       (runWorker badStream (3 + 1)).count = (runWorker badStream 3).count + 1)) :=
  ⟨by norm_num, counter_invariant_before_wraparound badStream 3 (by norm_num)⟩

/-! ### C5: ordering of stop flags and joins -/

lemma stoppingTrace_length (n : Nat) : (stoppingTrace n).length = 2 * n := by
  induction n with
  | zero => rfl
  | succ k ih => simp [stoppingTrace, ih]; omega

/-- C5: the claim says no join-wait starts before every slot's stop flag has
been set.  The shutdown loop interleaves instead: it sets `retire[0]`, joins
thread 0, and only afterwards sets `retire[1]` — with 2 workers the trace
contains a `setFlag` after a `join`. -/
theorem stopping_interleaves_counterexample :
    stoppingTrace 2 = [StopEvent.setFlag 0, StopEvent.join 0,
      StopEvent.setFlag 1, StopEvent.join 1] ∧
    noFlagAfterJoin (stoppingTrace 2) = false := by
  refine ⟨by decide, by decide⟩

/-- C5 (amended): the Orchestrator handles the workers strictly in index
order, setting slot `i`'s flag immediately before joining worker `i`: in the
trace for `n` workers, `setFlag i` sits at position `2i` and `join i` at
position `2i + 1`. -/
theorem stopping_sets_flag_then_joins_each (n i : Nat) (h : i < n) :
    (stoppingTrace n)[2 * i]? = some (StopEvent.setFlag i) ∧
    (stoppingTrace n)[2 * i + 1]? = some (StopEvent.join i) := by
  induction n with
  | zero => omega
  | succ k ih =>
      rcases Nat.lt_succ_iff_lt_or_eq.mp h with h' | rfl
      · have hlen := stoppingTrace_length k
        have hx := ih h'
        constructor
        · rw [stoppingTrace, List.getElem?_append_left (by omega)]
          exact hx.1
        · rw [stoppingTrace, List.getElem?_append_left (by omega)]
          exact hx.2
      · have hlen := stoppingTrace_length i
        constructor
        · rw [stoppingTrace, List.getElem?_append_right (by omega)]
          simp [hlen]
        · rw [stoppingTrace, List.getElem?_append_right (by omega)]
          simp [hlen]

/-- Witness for `stopping_sets_flag_then_joins_each` at `n = 2`, `i = 1`. -/
theorem stopping_sets_flag_then_joins_each_witness :
    1 < 2 ∧
    ((stoppingTrace 2)[2 * 1]? = some (StopEvent.setFlag 1) ∧
     (stoppingTrace 2)[2 * 1 + 1]? = some (StopEvent.join 1)) :=
  ⟨by decide, stopping_sets_flag_then_joins_each 2 1 (by decide)⟩

/-! ### C9: the lead worker's first iteration -/

/-- C9: on the lead worker's very first loop iteration (`i = 0`, and `0` is a
multiple of `analysis_samples_rate`) the analysis runs: starting from the
freshly zeroed lead slot and *any* state of the other slots, the iteration
leaves the lead's `total` at exactly 1 and appends the first record, built
from the post-increment slots. -/
theorem lead_worker_first_iteration_analysis (others : List WorkerSlot)
    (ins : Bool) :
    0 % analysis_samples_rate = 0 ∧
    (piIter 0 0 ins ⟨⟨0, 0, false⟩ :: others, []⟩).dev
      = [analysisRecord (slotStep ins ⟨0, 0, false⟩ :: others)] ∧
    ((piIter 0 0 ins ⟨⟨0, 0, false⟩ :: others, []⟩).slots.headD default).total
      = 1 := by
  refine ⟨rfl, ?_, ?_⟩ <;>
    simp [piIter, analysis, slotStep, analysis_samples_rate, UINT_MOD]

/-! ### C6: the analysis record on the non-overflowing path -/

/-- C6: `analysis` sums the counters over exactly the slots at indices
`1 .. workerCount-1` (the lead slot 0 is excluded), and — whenever those sums
fit in a signed 32-bit `int` and the summed total is nonzero — appends to the
*end* of the sequence the record whose deviation is
`test_pi - 4 * sumIn / sumTotal` and whose sample count is `sumTotal`. -/
theorem analysis_spec (slots : List WorkerSlot) (dev : List Deviation)
    (hin : sumIn slots < INT_HALF) (htot : sumTotal slots < INT_HALF)
    (hpos : 0 < sumTotal slots) :
    sumIn slots = ((slots.drop 1).map (·.count)).sum ∧
    sumTotal slots = ((slots.drop 1).map (·.total)).sum ∧
    analysis slots dev
      = dev ++ [Deviation.mk
          (some (test_pi - 4 * (sumIn slots : ℚ) / (sumTotal slots : ℚ)))
          (sumTotal slots)] := by
  have hM : INT_HALF < UINT_MOD := by norm_num [INT_HALF, UINT_MOD]
  have hin' : sumIn slots < UINT_MOD := lt_trans hin hM
  have htot' : sumTotal slots < UINT_MOD := lt_trans htot hM
  have hci : count_in slots = (sumIn slots : Int) := by
    rw [count_in_eq, Nat.mod_eq_of_lt hin', toSigned_eq_self _ hin]
  have hct : count_total slots = (sumTotal slots : Int) := by
    rw [count_total_eq, Nat.mod_eq_of_lt htot', toSigned_eq_self _ htot]
  have hct0 : ¬ (count_total slots = 0) := by
    rw [hct]
    exact_mod_cast (by omega : sumTotal slots ≠ 0)
  have hpts : intBits (count_total slots) = sumTotal slots := by
    rw [hct]
    unfold intBits
    rw [Int.emod_eq_of_lt (by positivity) (by exact_mod_cast htot')]
    exact Int.toNat_natCast _
  have hacc : (calculated_pi slots).map (fun p => test_pi - p)
      = some (test_pi - 4 * (sumIn slots : ℚ) / (sumTotal slots : ℚ)) := by
    unfold calculated_pi
    rw [if_neg hct0, hci, hct]
    simp only [Option.map_some']
    congr 1
    push_cast
    ring
  refine ⟨rfl, rfl, ?_⟩
  unfold analysis analysisRecord
  rw [hacc, hpts]

/-- Witness slots for `analysis_spec`: lead slot plus one worker with 3 of 4
points inside. -/
def specSlots : List WorkerSlot := [⟨0, 0, false⟩, ⟨3, 4, false⟩]

/-- Witness for `analysis_spec` on `specSlots`. -/
theorem analysis_spec_witness :
    sumIn specSlots < INT_HALF ∧ sumTotal specSlots < INT_HALF ∧
    0 < sumTotal specSlots ∧
    analysis specSlots []
      = [] ++ [Deviation.mk
          (some (test_pi - 4 * (sumIn specSlots : ℚ) / (sumTotal specSlots : ℚ)))
          (sumTotal specSlots)] :=
  ⟨by decide, by decide, by decide,
    (analysis_spec specSlots [] (by decide) (by decide) (by decide)).2.2⟩

/-! ### C7: classification of a point -/

lemma insideCheck_iff (x0 y0 : ℝ) :
    insideCheck x0 y0 ↔ x0 ^ 2 + y0 ^ 2 ≤ 1 := by
  unfold insideCheck
  have hs : 0 ≤ x0 * x0 + y0 * y0 :=
    add_nonneg (mul_self_nonneg x0) (mul_self_nonneg y0)
  constructor
  · intro h
    have h2 : Real.sqrt (x0 * x0 + y0 * y0) ^ 2 ≤ 1 ^ 2 :=
      pow_le_pow_left₀ (Real.sqrt_nonneg _) h 2
    rw [Real.sq_sqrt hs] at h2
    nlinarith [h2]
  · intro h
    have hle : Real.sqrt (x0 * x0 + y0 * y0) ≤ Real.sqrt 1 :=
      Real.sqrt_le_sqrt (by nlinarith)
    rwa [Real.sqrt_one] at hle

/-- C7: for coordinates in `[0,1)` the loop's test `sqrtl(x0*x0 + y0*y0) <= 1`
classifies the point inside iff `x0² + y0² ≤ 1`; the boundary point `(1,0)`
is classified inside and `(1,1)` outside. -/
theorem classification_spec (x0 y0 : ℝ) (hx0 : 0 ≤ x0) (hx1 : x0 < 1)
    (hy0 : 0 ≤ y0) (hy1 : y0 < 1) :
    (insideCheck x0 y0 ↔ x0 ^ 2 + y0 ^ 2 ≤ 1) ∧
    insideCheck 1 0 ∧ ¬ insideCheck 1 1 := by
  refine ⟨insideCheck_iff x0 y0, ?_, ?_⟩
  · rw [insideCheck_iff]
    norm_num
  · rw [insideCheck_iff]
    norm_num

/-- Witness for `classification_spec` at `(1/2, 1/3)`. -/
theorem classification_spec_witness :
    (0 : ℝ) ≤ 1 / 2 ∧ (1 / 2 : ℝ) < 1 ∧ (0 : ℝ) ≤ 1 / 3 ∧ (1 / 3 : ℝ) < 1 ∧
    ((insideCheck (1 / 2) (1 / 3) ↔ (1 / 2 : ℝ) ^ 2 + (1 / 3 : ℝ) ^ 2 ≤ 1) ∧
     insideCheck 1 0 ∧ ¬ insideCheck 1 1) :=
  ⟨by norm_num, by norm_num, by norm_num, by norm_num,
    classification_spec (1 / 2) (1 / 3) (by norm_num) (by norm_num)
      (by norm_num) (by norm_num)⟩

/-! ### C10: signed 32-bit accumulation in the analysis -/

/-- C10: the analysis accumulators are signed 32-bit: `count_in` and
`count_total` hold the true sums reduced modulo `2^32` reinterpreted as
signed, the stored `points` field holds the reduced sum, the division
operates on the signed reinterpretations, and once the true summed total
reaches `2^31` the signed value used is no longer the true sum. -/
theorem analysis_signed_overflow (slots : List WorkerSlot)
    (h : INT_HALF ≤ sumTotal slots) :
    count_in slots = toSigned (sumIn slots % UINT_MOD) ∧
    count_total slots = toSigned (sumTotal slots % UINT_MOD) ∧
    (analysisRecord slots).points = sumTotal slots % UINT_MOD ∧
    calculated_pi slots = (if count_total slots = 0 then none
      else some ((toSigned (sumIn slots % UINT_MOD) : ℚ)
        / (toSigned (sumTotal slots % UINT_MOD) : ℚ) * 4)) ∧
    toSigned (sumTotal slots % UINT_MOD) ≠ (sumTotal slots : Int) := by
  have hM : UINT_MOD = 4294967296 := by norm_num [UINT_MOD]
  have hH : INT_HALF = 2147483648 := by norm_num [INT_HALF]
  refine ⟨count_in_eq slots, count_total_eq slots, analysisRecord_points slots,
    ?_, ?_⟩
  · unfold calculated_pi
    rw [count_in_eq, count_total_eq]
  · unfold toSigned
    rw [hH] at h ⊢
    rw [hM]
    split <;> omega

/-- Witness slots for `analysis_signed_overflow`: a single non-lead slot whose
`total` already holds `2^31`. -/
def overflowSlots : List WorkerSlot := [⟨0, 0, false⟩, ⟨0, 2147483648, false⟩]

/-- Witness for `analysis_signed_overflow` on `overflowSlots`. -/
theorem analysis_signed_overflow_witness :
    INT_HALF ≤ sumTotal overflowSlots ∧
    (count_in overflowSlots = toSigned (sumIn overflowSlots % UINT_MOD) ∧
     count_total overflowSlots = toSigned (sumTotal overflowSlots % UINT_MOD) ∧
     (analysisRecord overflowSlots).points = sumTotal overflowSlots % UINT_MOD ∧
     calculated_pi overflowSlots = (if count_total overflowSlots = 0 then none
       else some ((toSigned (sumIn overflowSlots % UINT_MOD) : ℚ)
         / (toSigned (sumTotal overflowSlots % UINT_MOD) : ℚ) * 4)) ∧
     toSigned (sumTotal overflowSlots % UINT_MOD) ≠ (sumTotal overflowSlots : Int)) :=
  ⟨by decide, analysis_signed_overflow overflowSlots (by decide)⟩

end MonteCarloPi
